import Mathlib

/-
Verification of the Sim-Engine simulation kernel (src/simengine/core.py)
against its natural-language specification.

The relevant Python classes are shallowly embedded below: mutable objects
become Lean structures, in-place mutation becomes explicit state passing,
raised exceptions become `Except` errors, Python `int`/`float` tick counters
become `Int`, and the geometry collaborator (floats) is modelled over `ℝ`.
-/

namespace SimEngine

/-- Exceptions that can escape the embedded code paths: typed errors from
src/simengine/errors plus Python runtime errors actually reachable in the
source (`AttributeError` from a read of a never-assigned attribute,
`NameError` from a reference to an undefined name). -/
inductive PErr where
  | processAlreadyCompleted
  | processIsNoLongerSleeping
  | attributeError
  | nameError
  deriving DecidableEq, Repr

/-- Identity of a `FlagProcessState` subclass (`hash` of a stateless state is
`id(self.__class__)`, so flags of the same subclass collide and flags of
different subclasses do not). `unitMoving` stands for
`UnitMovingProcessState`. -/
inductive FlagCls where
  | unitMoving
  | generic
  deriving DecidableEq, Repr

/-- The public process states of core.py: `ActiveProcessState`,
`CompletedProcessState`, `SleepProcessState` (carrying `ticks_to_activate`
and `tick = 1 * tick_factor`) and `FlagProcessState` subclasses (carrying
the subclass identity and the `_is_standing` class attribute). -/
inductive ProcessState where
  | active
  | completed
  | sleep (ticksToActivate : Int) (tick : Int)
  | flag (cls : FlagCls) (isStanding : Bool)
  deriving DecidableEq, Repr

/-- `is_valid` of each state, as the sign of the returned `Report`:
`Active` and `Completed` report `Report(True)`; `Sleep` reports an error
report exactly when `ticks_to_activate <= 0`; `Flag` reports
`Report(_is_standing)`. -/
def ProcessState.isValid : ProcessState → Bool
  | .active => true
  | .completed => true
  | .sleep t _ => decide (0 < t)
  | .flag _ standing => standing

/-- The class-level `is_compelling_to_handle` attribute: true for
`ActiveProcessState` and `FlagProcessState`, false for
`CompletedProcessState` and `SleepProcessState`. -/
def ProcessState.isCompellingToHandle : ProcessState → Bool
  | .active => true
  | .completed => false
  | .sleep _ _ => false
  | .flag _ _ => true

/-- `ProcessState.update`: `_check_state_errors` (raises the report error on
an invalid state) followed by `_handle`.  `Active._handle` is a no-op,
`Completed._handle` raises `ProcessAlreadyCompletedError`, `Sleep._handle`
decrements `ticks_to_activate` by `tick`, and `FlagProcessState` overrides
`update` itself to a plain `pass` (no validity check, no effect). -/
def ProcessState.update : ProcessState → Except PErr ProcessState
  | .active => .ok .active
  | .completed => .error .processAlreadyCompleted
  | .sleep t k =>
      if 0 < t then .ok (.sleep (t - k) k) else .error .processIsNoLongerSleeping
  | .flag c standing => .ok (.flag c standing)

/-- `get_next_state`: `Active` and `Completed` return `None`; the
`NewStateByValidationProcessStateMixin` used by `Sleep` and `Flag` returns
`self._new_state_factory(self.process)` (a fresh `ActiveProcessState`)
when `self.is_valid()` is truthy, and `None` otherwise — the truthiness
condition exactly as written at core.py:116, with the `is_valid` condition
of each variant inlined (`0 < ticks_to_activate` for Sleep, `_is_standing` for
Flag). -/
def ProcessState.getNextState : ProcessState → Option ProcessState
  | .active => none
  | .completed => none
  | .sleep t _ => if 0 < t then some .active else none
  | .flag _ standing => if standing then some .active else none

/-- Whether `hash(old) == hash(new)` can hold for a *freshly constructed*
replacement state `new`.  Stateless variants hash by `id(self.__class__)`;
`SleepProcessState` overrides `__hash__` to `id(self)`, so a fresh object is
never hash-equal to the old one. -/
def hashEq : ProcessState → ProcessState → Bool
  | .active, .active => true
  | .completed, .completed => true
  | .flag c1 _, .flag c2 _ => c1 == c2
  | _, _ => false

/-- `hashEq` lifted to the optional `state` slot of a process.  Both sides
are present whenever a replacement happened; the other cases are
unreachable and are mapped to `true` (break). -/
def hashEqOpt : Option ProcessState → Option ProcessState → Bool
  | some a, some b => hashEq a b
  | _, _ => true

/-- The process classes whose behavior the claims need: a plain `Process`
subclass (abstract `_handle`, default `_get_next_state` returning `None`),
`ManyPassProcess`, and `DelayedProcess`. -/
inductive PKind where
  | plain
  | manyPass
  | delayed
  deriving DecidableEq, Repr

/-- One process object.  `passes` is `ManyPassProcess._passes`,
`ticksOfInactivity` is `DelayedProcess._ticks_of_inactivity`, `state` is the
public state (`None` until started).  `handleCount` and `updateCount`
instrument how many times `_handle` ran and how many times `update` was
entered; the modelled `_handle` bodies have no effect on the machine. -/
structure Process where
  kind : PKind
  passes : Int := 0
  ticksOfInactivity : Int := 0
  state : Option ProcessState := none
  handleCount : Nat := 0
  updateCount : Nat := 0
  deriving DecidableEq, Repr

/-- The `_get_next_state` hook: the base returns `None`;
`ManyPassProcess` returns a fresh `CompletedProcessState` once
`_passes <= 0`. -/
def Process.getNextStateDefault (p : Process) : Option ProcessState :=
  match p.kind with
  | .manyPass => if p.passes ≤ 0 then some .completed else none
  | _ => none

/-- `start`: the base sets a fresh `ActiveProcessState`; `DelayedProcess`
overrides it with `activate_delay`, which sets
`SleepProcessState(self, self._ticks_of_inactivity)` (tick factor 1). -/
def Process.start (p : Process) : Process :=
  match p.kind with
  | .delayed => { p with state := some (.sleep p.ticksOfInactivity 1) }
  | _ => { p with state := some .active }

/-- Running the process-specific `_handle` (instrumented only). -/
def Process.handle (p : Process) : Process :=
  { p with handleCount := p.handleCount + 1 }

/-- The replacement state `Process.__reset_state` would install: the
own `get_next_state` of the state, falling back to `self._get_next_state()`
when that is `None`. -/
def resetChoice (p : Process) (s : ProcessState) : Option ProcessState :=
  match s.getNextState with
  | some s2 => some s2
  | none => p.getNextStateDefault

/-- One pass of `Process.__reset_state`: replace `self.state` if the chosen
next state is not `None`.  The boolean records whether a replacement (by a
freshly constructed object) happened. -/
def resetState (p : Process) : Process × Bool :=
  match p.state with
  | none => (p, false)
  | some s =>
    match resetChoice p s with
    | some s2 => ({ p with state := some s2 }, true)
    | none => (p, false)

/-- The `while True` transition-fixpoint loop of `Process.update`, with
explicit fuel: run `__reset_state`, stop as soon as
`hash(old_state) == hash(self.state)`.  `resetLoop_fuel_irrelevant` below
shows fuel 4 is enough for every process of this model, so the fuelled
function agrees with the unbounded source loop. -/
def resetLoop : Nat → Process → Process
  | 0, p => p
  | n + 1, p =>
    let q := resetState p
    if q.2 = true ∧ hashEqOpt p.state q.1.state = false then resetLoop n q.1
    else q.1

/-- `Process.update` (with the `ManyPassProcess.update` override applied
first for that kind): decrement `_passes` if `ManyPassProcess`; `start` if
no state yet; run the `update` of the state; run `_handle` if the state is
compelling; then run the transition loop. -/
def Process.update (p0 : Process) : Except PErr Process :=
  let p1 :=
    match p0.kind with
    | .manyPass => { p0 with passes := p0.passes - 1, updateCount := p0.updateCount + 1 }
    | _ => { p0 with updateCount := p0.updateCount + 1 }
  let p2 := if p1.state.isNone then p1.start else p1
  match p2.state with
  | none => .error .attributeError
  | some s =>
    match s.update with
    | .error e => .error e
    | .ok s2 =>
      let p3 := { p2 with state := some s2 }
      let p4 := if s2.isCompellingToHandle then p3.handle else p3
      .ok (resetLoop 4 p4)

/-- `n` successive calls of `update` on a process, stopping at the first
raised error. -/
def updateTimes : Nat → Process → Except PErr Process
  | 0, p => .ok p
  | n + 1, p =>
    match updateTimes n p with
    | .error e => .error e
    | .ok q => q.update

/-- A fresh, not yet started `ManyPassProcess` with `_passes = k`. -/
def mkManyPass (k : Nat) : Process :=
  { kind := .manyPass, passes := (k : Int) }

/-- A plain process whose current state is `SleepProcessState(n)` with the
default tick factor 1 (as installed, e.g., by `DelayedProcess.start`). -/
def mkSleeping (n : Int) : Process :=
  { kind := .plain, state := some (.sleep n 1) }

/-- Rank used to justify the fuel of `resetLoop`: every continuing
iteration of the loop strictly decreases it. -/
def procRank (p : Process) : Nat :=
  match p.state with
  | none => 0
  | some .completed => 1
  | some .active => 2
  | some (.sleep _ _) => 3
  | some (.flag _ _) => 3

/-- A `ProcessKeeper`: the set of active processes (held as a list; the
source holds a Python set and iterates it in some arbitrary order, so the
list fixes one such order) and the ordered `__completed_processes` log. -/
structure ProcessKeeper where
  processes : List Process
  completedProcesses : List Process
  deriving DecidableEq, Repr

/-- The loop body of `activate_processes` over the swapped-out processes:
a process whose current state is exactly `CompletedProcessState` is
appended to the completed log; any other process is first re-added to the
active set and then has `update()` called on it (the re-added object is the
updated one, since Python mutates it in place).  An exception from an
`update` propagates; the model keeps only the error, as no claim needs the
partially mutated keeper. -/
def activateGo : List Process → ProcessKeeper → Except PErr ProcessKeeper
  | [], acc => .ok acc
  | p :: rest, acc =>
    if p.state = some .completed then
      activateGo rest { acc with completedProcesses := acc.completedProcesses ++ [p] }
    else
      match p.update with
      | .error e => .error e
      | .ok p2 => activateGo rest { acc with processes := acc.processes ++ [p2] }

/-- `ProcessKeeper.activate_processes`: swap `_processes` for an empty set,
then run the loop over the previously active processes. -/
def activateProcesses (k : ProcessKeeper) : Except PErr ProcessKeeper :=
  activateGo k.processes { processes := [], completedProcesses := k.completedProcesses }

/-- Calling `update()` once on each process of a list in order, stopping at
the first error (used to state what `activate_processes` does to the
non-completed processes). -/
def updateAll : List Process → Except PErr (List Process)
  | [] => .ok []
  | p :: ps =>
    match p.update with
    | .error e => .error e
    | .ok p2 =>
      match updateAll ps with
      | .error e => .error e
      | .ok ps2 => .ok (p2 :: ps2)

/-- Error raised by the `UnitHandler.__call__` dispatch wrapper. -/
inductive HErr where
  | unsupportedUnitForHandler
  deriving DecidableEq, Repr

/-- A constructed `UnitHandler`: its `is_unit_suitable` predicate (the sign
of the returned `Report`) and the effect of `_handle_units` on the world
state.  `U` is the unit type, `S` the state of the whole world. -/
structure UnitHandler (U S : Type) where
  isUnitSuitable : U → Bool
  handleUnits : S → List U → S

/-- A constructed `World`: `deep_parts` as a function of the current world
state, and the `_unit_handlers` tuple.  (`World.__init__` builds that tuple
as `tuple(factory(self) for factory in self._unit_handler_factories)`, so
its order is the order in which the factories were supplied.) -/
structure World (U S : Type) where
  deepParts : S → List U
  unitHandlers : List (UnitHandler U S)

/-- `UnitHandler.__call__`: validate every incoming unit with
`is_unit_suitable` (raising `UnsupportedUnitForHandlerError` on the first
failure) and then delegate to `_handle_units`. -/
def unitHandlerCall {U S : Type} (h : UnitHandler U S) (s : S) (units : List U) :
    Except HErr S :=
  if units.all h.isUnitSuitable then .ok (h.handleUnits s units) else
    .error .unsupportedUnitForHandler

/-- The loop of `World.update`: for each handler in declaration order,
filter the current `deep_parts` by the own suitability predicate of the handler
and invoke the handler once with the filtered tuple.  The trace records the
unit collection each handler invocation received. -/
def worldUpdateGo {U S : Type} (dp : S → List U) :
    List (UnitHandler U S) → S → List (List U) → Except HErr (S × List (List U))
  | [], s, trace => .ok (s, trace)
  | h :: hs, s, trace =>
    let units := (dp s).filter h.isUnitSuitable
    match unitHandlerCall h s units with
    | .error e => .error e
    | .ok s2 => worldUpdateGo dp hs s2 (trace ++ [units])

/-- `World.update`. -/
def worldUpdate {U S : Type} (w : World U S) (s : S) : Except HErr (S × List (List U)) :=
  worldUpdateGo w.deepParts w.unitHandlers s []

/-- A bilateral process factory as `ProcessInteractiveUnit` consumes it:
only its `is_support_participants((self, unit))` report sign is relevant
here. -/
structure BilateralProcessFactory (U : Type) where
  isSupportParticipants : U → U → Bool

/-- `_get_suported_process_factories_for` (cache-miss path, which is the
path taken the first time a partner is queried: the initial cache slot
holds a fresh `object()` that is identical to no unit; a cache hit returns
this very tuple unchanged).  As written at core.py:577-582, the
comprehension evaluates `.is_support_participants((self, unit))` for EVERY
configured factory and collects the resulting `Report`s — it does not
filter the factories — so the model returns the list of report signs. -/
def getSuportedProcessFactoriesFor {U : Type} (facs : List (BilateralProcessFactory U))
    (self other : U) : List Bool :=
  facs.map fun f => f.isSupportParticipants self other

/-- `is_support_interaction_with`: the sign of the returned report is
`bool(self._get_suported_process_factories_for(unit))`, i.e. the
truthiness of the collected tuple. -/
def isSupportInteractionWith {U : Type} (facs : List (BilateralProcessFactory U))
    (self other : U) : Bool :=
  !(getSuportedProcessFactoriesFor facs self other).isEmpty

/-- A two-unit universe for concrete interaction scenarios. -/
inductive UU where
  | a
  | b
  deriving DecidableEq, Repr

/-- A configured bilateral factory that reports support for no participant
pair. -/
def noSupportFactory : BilateralProcessFactory UU :=
  { isSupportParticipants := fun _ _ => false }

/-- A discrete unit for the parts-tree model: its `_part_attribute_names`
(attribute names as numbers) and the attributes actually present on the
object, each holding a collection of parts. -/
inductive DiscreteUnit where
  | mk : List Nat → List (Nat × List DiscreteUnit) → DiscreteUnit

/-- The declared `_part_attribute_names`. -/
def DiscreteUnit.partAttributeNames : DiscreteUnit → List Nat
  | .mk ns _ => ns

/-- The attributes present on the object. -/
def DiscreteUnit.attrs : DiscreteUnit → List (Nat × List DiscreteUnit)
  | .mk _ a => a

/-- `hasattr(self, part_attribute_name)`. -/
def hasPartAttr (u : DiscreteUnit) (n : Nat) : Bool :=
  u.attrs.any fun pr => pr.1 == n

/-- `StructuredPartDiscreteMixin._get_parts` as written: iterate the part
attribute names, `continue` past absent ones, and for the first present one
evaluate `getattr(self, part_attribute)` — where `part_attribute` is an
undefined name (the loop variable is `part_attribute_name`), so the
interpreter raises `NameError` (core.py:636).  Only when every declared
attribute name is absent does the loop finish and return the empty
frozenset. -/
def getParts (u : DiscreteUnit) : Except PErr (List DiscreteUnit) :=
  if u.partAttributeNames.any (hasPartAttr u) then .error .nameError else .ok []

/-- `DeepPartDiscreteMixin.deep_parts` over `_get_parts`: it iterates
`self.parts`, adding each part and its own `deep_parts`.  Since
`getParts` either raises or returns the empty collection, the iteration
body never runs: the error propagates and the `ok` case has nothing to
expand. -/
def deepParts (u : DiscreteUnit) : Except PErr (List DiscreteUnit) :=
  match getParts u with
  | .error e => .error e
  | .ok ps => .ok ps

/-- 2-dimensional geometry vectors (`simengine.geometry.Vector` restricted
to the two coordinates the claims use); Python floats are modelled as real
numbers. -/
abbrev Vec : Type := ℝ × ℝ

/-- `Vector.length`: the euclidean norm. -/
noncomputable def Vec.len (v : Vec) : ℝ :=
  Real.sqrt (v.1 ^ 2 + v.2 ^ 2)

/-- `Vector.get_reduced_to_length(length)`: `(self / self.length) * length`.
The source raises `VectorError` on a zero-length vector; every call below
is guarded by `length > speed_limit ≥ 0`, so that branch is unreachable
here. -/
noncomputable def Vec.getReducedToLength (v : Vec) (l : ℝ) : Vec :=
  ((1 / v.len) * l) • v

/-- The state of one `ProcessMovableUnit` together with its moving-process
chain: `position` and `previous_position` of the unit,
`vector_to_next_unit_position` of the innermost `DirectedMovingProcess`
(an `AbruptImpulseProcess` in the impulse scenarios), the `speed_limit` of
a chained `SpeedLimitedProxyMovingProcess` (if one is chained), the public
state of the moving process, and the zone of the unit (the out-of-scope `Zone`
collaborator, modelled as its set of points; `move_by(point_changer)` maps
the changer over those points). -/
structure MovableUnit where
  position : Vec
  previousPosition : Vec
  vectorToNextUnitPosition : Vec
  speedLimit : Option ℝ
  pstate : Option ProcessState
  zone : Set Vec

/-- `DirectedMovingProcess.next_unit_position`:
`self.movable_unit.position + self.vector_to_next_unit_position`. -/
noncomputable def innerNextUnitPosition (u : MovableUnit) : Vec :=
  u.position + u.vectorToNextUnitPosition

/-- The outermost `next_unit_position` the unit sees: the value of the
inner process if no limiter is chained, else
`SpeedLimitedProxyMovingProcess.next_unit_position`, which subtracts the
`previous_position` of the unit from the wrapped `next_unit_position` and clamps
that displacement to `speed_limit` before adding it back onto `position`
(core.py:831-841). -/
noncomputable def nextUnitPosition (u : MovableUnit) : Vec :=
  match u.speedLimit with
  | none => innerNextUnitPosition u
  | some lim =>
    let v := innerNextUnitPosition u - u.previousPosition
    u.position + (if v.len ≤ lim then v else v.getReducedToLength lim)

/-- `MovableUnit.move` (core.py:733-745): store the current position in
`previous_position`, THEN evaluate `next_position` (so the evaluation sees
the already-updated `previous_position`) and store it in `position`, then
translate the zone by `position - previous_position`. -/
noncomputable def MovableUnit.move (u : MovableUnit) : MovableUnit :=
  let u1 := { u with previousPosition := u.position }
  let u2 := { u1 with position := nextUnitPosition u1 }
  { u2 with zone := (fun q => q + (u2.position - u2.previousPosition)) '' u2.zone }

/-- `ProcessMovableUnit.move`: the inherited move, followed by installing a
fresh `UnitMovingProcessState` flag on the moving process. -/
noncomputable def MovableUnit.processMove (u : MovableUnit) : MovableUnit :=
  { u.move with pstate := some (.flag .unitMoving false) }

/-- The transition-fixpoint loop of `Process.update` specialised to a
moving process, whose `_get_next_state` is the base default (`None`). -/
def stateResetLoopPlain : Nat → ProcessState → ProcessState
  | 0, s => s
  | n + 1, s =>
    match s.getNextState with
    | none => s
    | some s2 => if hashEq s s2 then s2 else stateResetLoopPlain n s2

/-- `ImpulseMovingProcess._handle` (core.py:874-876): when the current
state is a `UnitMovingProcessState`, it evaluates
`self._impulse_changer(self.vector_to_next_point)` — but the instance has
no attribute `vector_to_next_point` (the raw vector lives in
`vector_to_next_unit_position`), so reading it raises `AttributeError`;
otherwise the handler does nothing. -/
def impulseHandle (u : MovableUnit) : Except PErr MovableUnit :=
  match u.pstate with
  | some (.flag c _) => if c = .unitMoving then .error .attributeError else .ok u
  | _ => .ok u

/-- `Process.update` run on the `AbruptImpulseProcess` attached to the
unit: start if stateless, run the own `update` of the state, run `_handle` if
the state is compelling, then run the transition loop. -/
noncomputable def impulseProcessUpdate (u0 : MovableUnit) : Except PErr MovableUnit :=
  let u := if u0.pstate.isNone then { u0 with pstate := some .active } else u0
  match u.pstate with
  | none => .ok u
  | some s =>
    match s.update with
    | .error e => .error e
    | .ok s2 =>
      let u1 := { u with pstate := some s2 }
      match (if s2.isCompellingToHandle then impulseHandle u1 else .ok u1) with
      | .error e => .error e
      | .ok u2 => .ok { u2 with pstate := some (stateResetLoopPlain 4 s2) }

/-- A freshly constructed speed-limited process-movable unit
(`CustomSpeedLimitedUnit(position, speed_limit)` whose inner impulse
process has had its raw vector set to `raw`): `MovableUnit.__init__` sets
`previous_position` to the initial position, the default zone factory of
`PositionalUnit` builds `Site(unit.position)`, and the moving process has not
been started. -/
noncomputable def mkSpeedLimitedUnit (pos raw : Vec) (lim : ℝ) : MovableUnit :=
  { position := pos
    previousPosition := pos
    vectorToNextUnitPosition := raw
    speedLimit := some lim
    pstate := none
    zone := {pos} }

/-- The C7 scenario unit: a `ProcessMovableUnit` at the origin driven by a
bare `AbruptImpulseProcess` (no limiter chained) whose vector has been set
to `(5, 0)` for one tick. -/
noncomputable def impulseUnit : MovableUnit :=
  { position := ((0 : ℝ), (0 : ℝ))
    previousPosition := ((0 : ℝ), (0 : ℝ))
    vectorToNextUnitPosition := ((5 : ℝ), (0 : ℝ))
    speedLimit := none
    pstate := none
    zone := {((0 : ℝ), (0 : ℝ))} }

/-- The C10 counterexample unit: a speed-limited unit that has already
moved (its `previous_position` differs from `position`) and whose raw
vector is currently zero. -/
noncomputable def c10Unit : MovableUnit :=
  { position := ((0 : ℝ), (0 : ℝ))
    previousPosition := ((3 : ℝ), (0 : ℝ))
    vectorToNextUnitPosition := ((0 : ℝ), (0 : ℝ))
    speedLimit := some 4
    pstate := none
    zone := {((0 : ℝ), (0 : ℝ))} }

/- ## Theorems -/

/-- Evaluation of `resetState` on a process with a current state. -/
theorem resetState_some (p : Process) (s : ProcessState) (hp : p.state = some s) :
    resetState p =
      match resetChoice p s with
      | some s2 => ({ p with state := some s2 }, true)
      | none => (p, false) := by
  unfold resetState
  rw [hp]

/-- Replacement states produced by `get_next_state` are fresh
`ActiveProcessState`s coming from a Sleep or Flag state. -/
theorem getNextState_cases (s s2 : ProcessState) (h : s.getNextState = some s2) :
    s2 = .active ∧ ((∃ t k, s = .sleep t k) ∨ (∃ c b, s = .flag c b)) := by
  cases s with
  | active => exact absurd h (by simp [ProcessState.getNextState])
  | completed => exact absurd h (by simp [ProcessState.getNextState])
  | sleep t k =>
    refine ⟨?_, .inl ⟨t, k, rfl⟩⟩
    rw [ProcessState.getNextState] at h
    split at h
    · exact (Option.some_inj.mp h).symm
    · exact absurd h (by simp)
  | flag c b =>
    refine ⟨?_, .inr ⟨c, b, rfl⟩⟩
    rw [ProcessState.getNextState] at h
    split at h
    · exact (Option.some_inj.mp h).symm
    · exact absurd h (by simp)

/-- Replacement states produced by the `_get_next_state` fallback are fresh
`CompletedProcessState`s. -/
theorem getNextStateDefault_cases (p : Process) (s2 : ProcessState)
    (h : p.getNextStateDefault = some s2) : s2 = .completed := by
  unfold Process.getNextStateDefault at h
  cases hk : p.kind <;> rw [hk] at h
  case manyPass =>
    by_cases hpass : p.passes ≤ 0
    · rw [if_pos hpass] at h
      exact (Option.some_inj.mp h).symm
    · rw [if_neg hpass] at h
      exact absurd h (by simp)
  all_goals exact absurd h (by simp)

/-- Every continuing iteration of the transition loop strictly decreases
`procRank`: the loop of the source terminates on the modelled process
kinds, and does so within rank-many iterations. -/
theorem resetState_rank_lt (p : Process)
    (h1 : (resetState p).2 = true)
    (h2 : hashEqOpt p.state (resetState p).1.state = false) :
    procRank (resetState p).1 < procRank p := by
  cases hp : p.state with
  | none =>
    have hres : resetState p = (p, false) := by
      unfold resetState
      rw [hp]
    rw [hres] at h1
    exact absurd h1 (by simp)
  | some s =>
    cases hc : resetChoice p s with
    | none =>
      have hres : resetState p = (p, false) := by
        rw [resetState_some p s hp, hc]
      rw [hres] at h1
      exact absurd h1 (by simp)
    | some s2 =>
      have hres : resetState p = ({ p with state := some s2 }, true) := by
        rw [resetState_some p s hp, hc]
      rw [hres] at h2 ⊢
      have hchoice : s.getNextState = some s2 ∨
          (s.getNextState = none ∧ p.getNextStateDefault = some s2) := by
        unfold resetChoice at hc
        cases hg : s.getNextState with
        | some s3 => rw [hg] at hc; exact .inl hc
        | none => rw [hg] at hc; exact .inr ⟨rfl, hc⟩
      rcases hchoice with hg | ⟨hg, hd⟩
      · obtain ⟨rfl, hs⟩ := getNextState_cases s s2 hg
        rcases hs with ⟨t, k, rfl⟩ | ⟨c, b, rfl⟩ <;> simp [procRank, hp]
      · obtain rfl := getNextStateDefault_cases p s2 hd
        cases s with
        | completed => simp [hashEqOpt, hashEq, hp] at h2
        | active => simp [procRank, hp]
        | sleep t k => simp [procRank, hp]
        | flag c b => simp [procRank, hp]

/-- Fuel monotonicity of the transition loop: any fuel exceeding the rank
of the process gives the same result. -/
theorem resetLoop_stable (n : Nat) (p : Process) (hn : procRank p < n) (m : Nat) :
    resetLoop (n + m) p = resetLoop n p := by
  induction n generalizing p m with
  | zero => omega
  | succ n ih =>
    have hsucc : n + 1 + m = (n + m) + 1 := by omega
    rw [hsucc, resetLoop, resetLoop]
    by_cases hc : (resetState p).2 = true ∧ hashEqOpt p.state (resetState p).1.state = false
    · rw [if_pos hc, if_pos hc]
      have hlt := resetState_rank_lt p hc.1 hc.2
      exact ih (resetState p).1 (by omega) m
    · rw [if_neg hc, if_neg hc]

/-- The rank of every process is at most 3. -/
theorem procRank_le_three (p : Process) : procRank p ≤ 3 := by
  unfold procRank
  split <;> omega

/-- The fuel 4 used inside `Process.update` captures the unbounded
`while True` loop of the source: adding any further fuel cannot change the
result. -/
theorem resetLoop_fuel_irrelevant (p : Process) (m : Nat) :
    resetLoop (4 + m) p = resetLoop 4 p :=
  resetLoop_stable 4 p (by have := procRank_le_three p; omega) m

/-- One unfolding of the transition loop. -/
theorem resetLoop_succ (n : Nat) (p : Process) :
    resetLoop (n + 1) p =
      if (resetState p).2 = true ∧ hashEqOpt p.state (resetState p).1.state = false
      then resetLoop n (resetState p).1 else (resetState p).1 := rfl

/-- `__reset_state` does not replace the state of an `Active` many-pass
process that still has passes left. -/
theorem resetState_active_notdone (p : Process) (hk : p.kind = .manyPass)
    (hs : p.state = some .active) (hj : 0 < p.passes) : resetState p = (p, false) := by
  rw [resetState_some p .active hs]
  have hch : resetChoice p .active = none := by
    show p.getNextStateDefault = none
    unfold Process.getNextStateDefault
    rw [hk, if_neg (by omega)]
  rw [hch]

/-- `__reset_state` replaces the state of an `Active` many-pass process
out of passes with a fresh `CompletedProcessState`. -/
theorem resetState_active_done (p : Process) (hk : p.kind = .manyPass)
    (hs : p.state = some .active) (hj : p.passes ≤ 0) :
    resetState p = ({ p with state := some .completed }, true) := by
  rw [resetState_some p .active hs]
  have hch : resetChoice p .active = some .completed := by
    show p.getNextStateDefault = some .completed
    unfold Process.getNextStateDefault
    rw [hk, if_pos hj]
  rw [hch]

/-- `__reset_state` keeps handing a `Completed` many-pass process fresh
`CompletedProcessState`s, which hash equal and stop the loop. -/
theorem resetState_completed_done (p : Process) (hk : p.kind = .manyPass)
    (hs : p.state = some .completed) (hj : p.passes ≤ 0) :
    resetState p = ({ p with state := some .completed }, true) := by
  rw [resetState_some p .completed hs]
  have hch : resetChoice p .completed = some .completed := by
    show p.getNextStateDefault = some .completed
    unfold Process.getNextStateDefault
    rw [hk, if_pos hj]
  rw [hch]

/-- The transition loop leaves an `Active` many-pass process with passes
left untouched. -/
theorem resetLoop_active_stay (p : Process) (hk : p.kind = .manyPass)
    (hs : p.state = some .active) (hj : 0 < p.passes) : resetLoop 4 p = p := by
  rw [resetLoop_succ, resetState_active_notdone p hk hs hj]
  simp

/-- The transition loop moves an `Active` many-pass process that is out of
passes to `Completed` (via one intermediate loop iteration whose fresh
`Completed` replacement hashes equal to the previous one). -/
theorem resetLoop_active_complete (p : Process) (hk : p.kind = .manyPass)
    (hs : p.state = some .active) (hj : p.passes ≤ 0) :
    resetLoop 4 p = { p with state := some .completed } := by
  rw [resetLoop_succ, resetState_active_done p hk hs hj]
  rw [if_pos (by simp [hs, hashEqOpt, hashEq])]
  rw [resetLoop_succ, resetState_completed_done { p with state := some .completed } hk rfl hj]
  rw [if_neg (by simp [hashEqOpt, hashEq])]

/-- Evaluation of `ManyPassProcess.update` on a started process with at
least one pass left after the decrement: the process stays `Active`. -/
theorem manyPass_update_active (j t : Int) (h u : Nat) (hj : 0 < j - 1) :
    Process.update ⟨.manyPass, j, t, some .active, h, u⟩ =
      .ok ⟨.manyPass, j - 1, t, some .active, h + 1, u + 1⟩ := by
  have heq : Process.update ⟨.manyPass, j, t, some .active, h, u⟩ =
      .ok (resetLoop 4 ⟨.manyPass, j - 1, t, some .active, h + 1, u + 1⟩) := rfl
  rw [heq, resetLoop_active_stay ⟨.manyPass, j - 1, t, some .active, h + 1, u + 1⟩ rfl rfl hj]

/-- Evaluation of `ManyPassProcess.update` on a fresh process with at
least one pass left after the decrement: `start` installs `Active` and the
process stays `Active`. -/
theorem manyPass_update_start (j t : Int) (h u : Nat) (hj : 0 < j - 1) :
    Process.update ⟨.manyPass, j, t, none, h, u⟩ =
      .ok ⟨.manyPass, j - 1, t, some .active, h + 1, u + 1⟩ := by
  have heq : Process.update ⟨.manyPass, j, t, none, h, u⟩ =
      .ok (resetLoop 4 ⟨.manyPass, j - 1, t, some .active, h + 1, u + 1⟩) := rfl
  rw [heq, resetLoop_active_stay ⟨.manyPass, j - 1, t, some .active, h + 1, u + 1⟩ rfl rfl hj]

/-- Evaluation of `ManyPassProcess.update` on a started process whose pass
counter reaches zero with this decrement: the transition loop replaces
`Active` with `Completed` within the same `update` call. -/
theorem manyPass_update_completes (j t : Int) (h u : Nat) (hj : j - 1 ≤ 0) :
    Process.update ⟨.manyPass, j, t, some .active, h, u⟩ =
      .ok ⟨.manyPass, j - 1, t, some .completed, h + 1, u + 1⟩ := by
  have heq : Process.update ⟨.manyPass, j, t, some .active, h, u⟩ =
      .ok (resetLoop 4 ⟨.manyPass, j - 1, t, some .active, h + 1, u + 1⟩) := rfl
  rw [heq,
    resetLoop_active_complete ⟨.manyPass, j - 1, t, some .active, h + 1, u + 1⟩ rfl rfl hj]

/-- Evaluation of `ManyPassProcess.update` on a fresh process whose pass
counter reaches zero with this decrement (the `k = 1` first call). -/
theorem manyPass_update_start_completes (j t : Int) (h u : Nat) (hj : j - 1 ≤ 0) :
    Process.update ⟨.manyPass, j, t, none, h, u⟩ =
      .ok ⟨.manyPass, j - 1, t, some .completed, h + 1, u + 1⟩ := by
  have heq : Process.update ⟨.manyPass, j, t, none, h, u⟩ =
      .ok (resetLoop 4 ⟨.manyPass, j - 1, t, some .active, h + 1, u + 1⟩) := rfl
  rw [heq,
    resetLoop_active_complete ⟨.manyPass, j - 1, t, some .active, h + 1, u + 1⟩ rfl rfl hj]

/-- Peeling the last of `n + 1` updates. -/
theorem updateTimes_succ_ok (n : Nat) (p q : Process) (h : updateTimes n p = .ok q) :
    updateTimes (n + 1) p = q.update := by
  rw [updateTimes, h]

/-- Trajectory of a fresh `ManyPassProcess` with `_passes = k` through its
first `k - 1` updates: after `i < k` updates it has `k - i` passes left and
is `Active` (or not yet started for `i = 0`). -/
theorem manyPass_traj (k : Nat) (i : Nat) (hik : i < k) :
    updateTimes i (mkManyPass k) =
      .ok ⟨.manyPass, (k : Int) - (i : Int), 0,
        if i = 0 then none else some .active, i, i⟩ := by
  induction i with
  | zero =>
    simp [updateTimes, mkManyPass]
  | succ i ih =>
    have hik2 : i < k := by omega
    rw [updateTimes_succ_ok i _ _ (ih hik2)]
    have hj : 0 < (k : Int) - (i : Int) - 1 := by omega
    have harith : (k : Int) - (i : Int) - 1 = (k : Int) - ((i : Nat) + 1 : Nat) := by
      push_cast
      ring
    by_cases hi0 : i = 0
    · rw [if_pos hi0, manyPass_update_start _ 0 i i hj, harith]
      simp
    · rw [if_neg hi0, manyPass_update_active _ 0 i i hj, harith]
      simp

/-- C3: a `ManyPassProcess` initialized with `_passes = k > 0` is exactly
`Completed` immediately after the `k`-th call to `update()` and is not
`Completed` after any earlier number of calls. -/
theorem manyPass_completes_after_exactly_k (k : Nat) (hk : 0 < k) :
    (∀ i : Nat, i < k → ∃ p : Process,
        updateTimes i (mkManyPass k) = .ok p ∧ p.state ≠ some .completed) ∧
    (∃ p : Process, updateTimes k (mkManyPass k) = .ok p ∧ p.state = some .completed) := by
  constructor
  · intro i hik
    refine ⟨_, manyPass_traj k i hik, ?_⟩
    by_cases hi0 : i = 0
    · rw [if_pos hi0]
      simp
    · rw [if_neg hi0]
      simp
  · have hlast := manyPass_traj k (k - 1) (by omega)
    have hksplit : k = (k - 1) + 1 := by omega
    have hidx : updateTimes k (mkManyPass k) = updateTimes ((k - 1) + 1) (mkManyPass k) := by
      rw [← hksplit]
    rw [hidx, updateTimes_succ_ok _ _ _ hlast]
    have hj : (k : Int) - ((k - 1 : Nat) : Int) - 1 ≤ 0 := by omega
    by_cases hk1 : k - 1 = 0
    · rw [if_pos hk1]
      rw [manyPass_update_start_completes _ 0 _ _ hj]
      exact ⟨_, rfl, rfl⟩
    · rw [if_neg hk1]
      rw [manyPass_update_completes _ 0 _ _ hj]
      exact ⟨_, rfl, rfl⟩

/-- Witness for C3 at `k = 3`. -/
theorem manyPass_completes_witness :
    (0 : Nat) < 3 ∧
    ((∀ i : Nat, i < 3 → ∃ p : Process,
        updateTimes i (mkManyPass 3) = .ok p ∧ p.state ≠ some .completed) ∧
     (∃ p : Process, updateTimes 3 (mkManyPass 3) = .ok p ∧ p.state = some .completed)) :=
  ⟨by omega, manyPass_completes_after_exactly_k 3 (by omega)⟩

/-- C4: calling `update()` on a process whose current state is
`CompletedProcessState` always raises `ProcessAlreadyCompletedError`
(`_handle` of the state raises before the own handler of the process or any
transition could run); it never silently succeeds. -/
theorem update_on_completed_always_fails (p : Process)
    (h : p.state = some .completed) :
    p.update = .error .processAlreadyCompleted := by
  unfold Process.update
  cases hk : p.kind <;>
    simp only [hk, h, Option.isNone_none, Option.isNone_some, Bool.false_eq_true,
      if_false, ProcessState.update]

/-- Witness for C4 at a concrete completed process. -/
theorem update_on_completed_always_fails_witness :
    (⟨.plain, 0, 0, some .completed, 0, 0⟩ : Process).state = some .completed ∧
    (⟨.plain, 0, 0, some .completed, 0, 0⟩ : Process).update =
      .error .processAlreadyCompleted :=
  ⟨rfl, update_on_completed_always_fails ⟨.plain, 0, 0, some .completed, 0, 0⟩ rfl⟩

/-- What the `activate_processes` loop does, relative to an arbitrary
accumulator: processes whose state is already exactly `Completed` are
appended to the completed log in iteration order; every other process has
`update()` called on it exactly once and is kept (updated) in the active
set, in iteration order. -/
theorem activateGo_spec (l : List Process) :
    ∀ (acc k2 : ProcessKeeper), activateGo l acc = .ok k2 →
    k2.completedProcesses = acc.completedProcesses ++
      l.filter (fun p => decide (p.state = some .completed)) ∧
    ∃ upd, updateAll (l.filter fun p => !decide (p.state = some .completed)) = .ok upd ∧
      k2.processes = acc.processes ++ upd := by
  induction l with
  | nil =>
    intro acc k2 h
    rw [activateGo] at h
    cases h
    exact ⟨by simp, [], by simp [updateAll], by simp⟩
  | cons p rest ih =>
    intro acc k2 h
    rw [activateGo] at h
    by_cases hc : p.state = some .completed
    · rw [if_pos hc] at h
      obtain ⟨h1, upd, h2, h3⟩ := ih _ _ h
      refine ⟨?_, upd, ?_, h3⟩
      · rw [h1]
        simp [hc, List.filter_cons]
      · rw [← h2]
        simp [hc, List.filter_cons]
    · rw [if_neg hc] at h
      cases hu : p.update with
      | error e =>
        rw [hu] at h
        exact absurd h (by simp)
      | ok p2 =>
        rw [hu] at h
        obtain ⟨h1, upd, h2, h3⟩ := ih _ _ h
        refine ⟨?_, p2 :: upd, ?_, ?_⟩
        · rw [h1]
          simp [hc, List.filter_cons]
        · rw [List.filter_cons_of_pos (by simp [hc]), updateAll, hu, h2]
        · rw [h3]
          simp
/-- C1 (amended): `activate_processes` moves a process to
`completed_processes` only when its state is already exactly `Completed`
when the swapped-out set is examined; every other process is re-inserted
into `processes` and has `update()` called on it exactly once — including a
process whose state becomes `Completed` during that very update, which
therefore stays in `processes` until the NEXT `activate_processes` call. -/
theorem activate_processes_spec (k k2 : ProcessKeeper)
    (h : activateProcesses k = .ok k2) :
    k2.completedProcesses = k.completedProcesses ++
      k.processes.filter (fun p => decide (p.state = some .completed)) ∧
    updateAll (k.processes.filter fun p => !decide (p.state = some .completed)) =
      .ok k2.processes := by
  obtain ⟨h1, upd, h2, h3⟩ := activateGo_spec k.processes _ k2 h
  refine ⟨h1, ?_⟩
  rw [h2, h3]
  simp

/-- A started `ManyPassProcess(_passes = 1)`: not completed before the
call, completed by its own update during the call. -/
def c1Process : Process := ⟨.manyPass, 1, 0, some .active, 0, 0⟩

/-- The same process as `activate_processes` leaves it. -/
def c1ProcessAfter : Process := ⟨.manyPass, 0, 0, some .completed, 1, 1⟩

/-- C1 counterexample: a keeper holding one started
`ManyPassProcess(_passes = 1)`.  The state of the process becomes `Completed`
during `activate_processes` (the returned keeper shows it completed), yet
after the call it is still in `processes` and `completed_processes` is
empty — the claim requires the opposite for such a process. -/
theorem activate_processes_claim_counterexample :
    activateProcesses ⟨[c1Process], []⟩ = .ok ⟨[c1ProcessAfter], []⟩ ∧
    c1Process.update = .ok c1ProcessAfter ∧
    c1Process.state ≠ some .completed ∧
    c1ProcessAfter.state = some .completed ∧
    (ProcessKeeper.mk [c1ProcessAfter] []).processes = [c1ProcessAfter] ∧
    (ProcessKeeper.mk [c1ProcessAfter] []).completedProcesses = [] := by
  refine ⟨rfl, rfl, ?_, rfl, rfl, rfl⟩
  simp [c1Process]

/-- Witness for the amended C1 theorem at the concrete one-process
keeper. -/
theorem activate_processes_spec_witness :
    activateProcesses ⟨[c1Process], []⟩ = .ok ⟨[c1ProcessAfter], []⟩ ∧
    ((ProcessKeeper.mk [c1ProcessAfter] []).completedProcesses =
        (ProcessKeeper.mk [c1Process] []).completedProcesses ++
          (ProcessKeeper.mk [c1Process] []).processes.filter
            (fun p => decide (p.state = some .completed)) ∧
      updateAll ((ProcessKeeper.mk [c1Process] []).processes.filter
          fun p => !decide (p.state = some .completed)) =
        .ok (ProcessKeeper.mk [c1ProcessAfter] []).processes) :=
  ⟨rfl, activate_processes_spec ⟨[c1Process], []⟩ ⟨[c1ProcessAfter], []⟩ rfl⟩

/-- C2: evaluation of the source at the failing inputs.  A plain process
sleeping with `ticks_to_activate = 2` leaves the Sleep state after a
SINGLE update (the claim requires two): `get_next_state` of the
validation mixin returns the fresh `ActiveProcessState` while the state is
still valid, the reverse of its own docstring.  With
`ticks_to_activate = 1` the state never leaves Sleep at all: after one
update it is still the Sleep instance (now expired), and the next update
raises `ProcessIsNoLongerSleepingError`. -/
theorem sleep_state_code_eval :
    updateTimes 1 (mkSleeping 2) = .ok ⟨.plain, 0, 0, some .active, 0, 1⟩ ∧
    updateTimes 1 (mkSleeping 1) = .ok ⟨.plain, 0, 0, some (.sleep 0 1), 0, 1⟩ ∧
    updateTimes 2 (mkSleeping 1) = .error .processIsNoLongerSleeping :=
  ⟨rfl, rfl, rfl⟩

/-- The handler loop of `World.update` never trips the dispatch wrapper:
each handler is reached exactly once, in list order, and receives exactly
the units it filtered as suitable. -/
theorem worldUpdateGo_ok {U S : Type} (dp : S → List U) (hs : List (UnitHandler U S)) :
    ∀ (s : S) (tr : List (List U)),
    ∃ (s2 : S) (nw : List (List U)),
      worldUpdateGo dp hs s tr = .ok (s2, tr ++ nw) ∧
      List.Forall₂ (fun (h : UnitHandler U S) (units : List U) =>
        units = (dp s).filter h.isUnitSuitable ∨
          ∀ u ∈ units, h.isUnitSuitable u = true) hs nw := by
  induction hs with
  | nil =>
    intro s tr
    exact ⟨s, [], by simp [worldUpdateGo], .nil⟩
  | cons h hs ih =>
    intro s tr
    have hall : ((dp s).filter h.isUnitSuitable).all h.isUnitSuitable = true := by
      rw [List.all_eq_true]
      intro u hu
      exact (List.mem_filter.mp hu).2
    obtain ⟨s2, nw, hgo, hfa⟩ := ih (h.handleUnits s ((dp s).filter h.isUnitSuitable))
      (tr ++ [(dp s).filter h.isUnitSuitable])
    refine ⟨s2, (dp s).filter h.isUnitSuitable :: nw, ?_, ?_⟩
    · rw [worldUpdateGo]
      rw [show unitHandlerCall h s ((dp s).filter h.isUnitSuitable) =
        .ok (h.handleUnits s ((dp s).filter h.isUnitSuitable)) from by
          rw [unitHandlerCall, if_pos hall]]
      show worldUpdateGo dp hs (h.handleUnits s ((dp s).filter h.isUnitSuitable))
          (tr ++ [(dp s).filter h.isUnitSuitable]) =
        .ok (s2, tr ++ ((dp s).filter h.isUnitSuitable) :: nw)
      rw [hgo]
      simp
    · refine List.Forall₂.cons (.inl rfl) ?_
      refine hfa.imp ?_
      intro a b hab
      rcases hab with hab | hab
      · exact .inr (by
          intro u hu
          rw [hab] at hu
          exact (List.mem_filter.mp hu).2)
      · exact .inr hab

/-- C5: `World.update` invokes its handlers exactly once each, in the
fixed order the handler factories were supplied at construction (the
`Forall₂` pairs the i-th handler with the i-th received unit collection),
every unit a handler receives satisfies the `is_unit_suitable` of that handler
predicate, and consequently the `UnsupportedUnitForHandlerError` branch of
the dispatch wrapper is unreachable from `World.update` (the result is
always `ok`). -/
theorem world_update_handlers_in_order {U S : Type} (w : World U S) (s : S) :
    ∃ (s2 : S) (trace : List (List U)),
      worldUpdate w s = .ok (s2, trace) ∧
      List.Forall₂ (fun (h : UnitHandler U S) (units : List U) =>
        ∀ u ∈ units, h.isUnitSuitable u = true) w.unitHandlers trace := by
  obtain ⟨s2, nw, hgo, hfa⟩ := worldUpdateGo_ok w.deepParts w.unitHandlers s []
  refine ⟨s2, nw, by simpa [worldUpdate] using hgo, ?_⟩
  refine hfa.imp ?_
  intro a b hab
  rcases hab with hab | hab
  · intro u hu
    rw [hab] at hu
    exact (List.mem_filter.mp hu).2
  · exact hab

/-- C6: evaluation of the source at the failing input.  With a single
configured bilateral factory that supports NO participant pair,
`is_support_interaction_with` still returns a truthy report: the
comprehension in `_get_suported_process_factories_for` collects the
`Report` of every configured factory instead of keeping only the
supporting factories, so the resulting tuple is non-empty whenever any
factory is configured and its truthiness ignores the report signs. -/
theorem is_support_interaction_code_eval :
    isSupportInteractionWith [noSupportFactory] UU.a UU.b = true ∧
    noSupportFactory.isSupportParticipants UU.a UU.b = false ∧
    (getSuportedProcessFactoriesFor [noSupportFactory] UU.a UU.b).any id = false := by
  decide

/-- Scaling a vector scales its length by the absolute scalar. -/
theorem Vec.len_smul (c : ℝ) (v : Vec) : (c • v).len = |c| * v.len := by
  unfold Vec.len
  rw [show (c • v).1 = c * v.1 from rfl, show (c • v).2 = c * v.2 from rfl]
  rw [show (c * v.1) ^ 2 + (c * v.2) ^ 2 = c ^ 2 * (v.1 ^ 2 + v.2 ^ 2) by ring]
  rw [Real.sqrt_mul (sq_nonneg c), Real.sqrt_sq_eq_abs]

/-- `nextUnitPosition` with a chained speed limiter. -/
theorem nextUnitPosition_some (u : MovableUnit) (lim : ℝ) (hl : u.speedLimit = some lim) :
    nextUnitPosition u =
      u.position +
        (if (u.position + u.vectorToNextUnitPosition - u.previousPosition).len ≤ lim
         then u.position + u.vectorToNextUnitPosition - u.previousPosition
         else (u.position + u.vectorToNextUnitPosition -
            u.previousPosition).getReducedToLength lim) := by
  unfold nextUnitPosition innerNextUnitPosition
  rw [hl]

/-- `nextUnitPosition` without a speed limiter. -/
theorem nextUnitPosition_none (u : MovableUnit) (hl : u.speedLimit = none) :
    nextUnitPosition u = u.position + u.vectorToNextUnitPosition := by
  unfold nextUnitPosition innerNextUnitPosition
  rw [hl]

/-- C9: a `SpeedLimitedProxyMovingProcess` with `speed_limit = 4` wrapping
an inner moving process whose raw displacement has length 10 (on a freshly
constructed unit, whose `previous_position` equals its `position`): the
exposed `next_unit_position` lies at distance exactly 4 from the current
position of the unit, in the same direction (a positive scalar multiple) as
the raw displacement. -/
theorem speed_limited_next_position (pos raw : Vec) (hlen : raw.len = 10) :
    (nextUnitPosition (mkSpeedLimitedUnit pos raw 4) - pos).len = 4 ∧
    ∃ c : ℝ, 0 < c ∧
      nextUnitPosition (mkSpeedLimitedUnit pos raw 4) - pos = c • raw := by
  have hv : (mkSpeedLimitedUnit pos raw 4).position +
      (mkSpeedLimitedUnit pos raw 4).vectorToNextUnitPosition -
      (mkSpeedLimitedUnit pos raw 4).previousPosition = raw := by
    show pos + raw - pos = raw
    exact add_sub_cancel_left pos raw
  have hnext : nextUnitPosition (mkSpeedLimitedUnit pos raw 4) =
      pos + raw.getReducedToLength 4 := by
    rw [nextUnitPosition_some (mkSpeedLimitedUnit pos raw 4) 4 rfl, hv, hlen]
    rw [if_neg (by norm_num)]
    rfl
  have hred : raw.getReducedToLength 4 = (2 / 5 : ℝ) • raw := by
    unfold Vec.getReducedToLength
    rw [hlen]
    norm_num
  have hdisp : nextUnitPosition (mkSpeedLimitedUnit pos raw 4) - pos = (2 / 5 : ℝ) • raw := by
    rw [hnext, hred, add_sub_cancel_left]
  refine ⟨?_, 2 / 5, by norm_num, hdisp⟩
  rw [hdisp, Vec.len_smul, hlen]
  rw [show |(2 / 5 : ℝ)| = 2 / 5 from abs_of_pos (by norm_num)]
  norm_num

/-- Witness for C9: unit at `(1, 2)`, raw displacement `(6, 8)` (length
exactly 10). -/
theorem speed_limited_next_position_witness :
    Vec.len ((6 : ℝ), (8 : ℝ)) = 10 ∧
    ((nextUnitPosition (mkSpeedLimitedUnit ((1 : ℝ), (2 : ℝ)) ((6 : ℝ), (8 : ℝ)) 4) -
        ((1 : ℝ), (2 : ℝ))).len = 4 ∧
      ∃ c : ℝ, 0 < c ∧
        nextUnitPosition (mkSpeedLimitedUnit ((1 : ℝ), (2 : ℝ)) ((6 : ℝ), (8 : ℝ)) 4) -
          ((1 : ℝ), (2 : ℝ)) = c • ((6 : ℝ), (8 : ℝ))) := by
  have hlen : Vec.len ((6 : ℝ), (8 : ℝ)) = 10 := by
    unfold Vec.len
    rw [show ((6 : ℝ), (8 : ℝ)).1 ^ 2 + ((6 : ℝ), (8 : ℝ)).2 ^ 2 = (10 : ℝ) ^ 2 by norm_num]
    rw [Real.sqrt_sq (by norm_num : (0 : ℝ) ≤ 10)]
  exact ⟨hlen, speed_limited_next_position ((1 : ℝ), (2 : ℝ)) ((6 : ℝ), (8 : ℝ)) hlen⟩

/-- C10 (amended): `MovableUnit.move` sets `previous_position` to the
pre-call `position`, sets `position` to the value `next_position` evaluates
to AFTER `previous_position` has been updated (which can differ from the
value `next_position` had at the moment of the call whenever
`next_position` depends on `previous_position`, as it does for
speed-limited units), translates the zone by the realized displacement
`position - previous_position`, and modifies no other field. -/
theorem movable_unit_move_spec (u : MovableUnit) :
    u.move.previousPosition = u.position ∧
    u.move.position = nextUnitPosition { u with previousPosition := u.position } ∧
    u.move.zone = (fun q => q + (u.move.position - u.position)) '' u.zone ∧
    u.move.vectorToNextUnitPosition = u.vectorToNextUnitPosition ∧
    u.move.speedLimit = u.speedLimit ∧
    u.move.pstate = u.pstate :=
  ⟨rfl, rfl, rfl, rfl, rfl, rfl⟩

/-- C10 counterexample: for the speed-limited unit `c10Unit` (which has
moved before, so `previous_position = (3, 0)` differs from
`position = (0, 0)`), `next_position` evaluates to `(-3, 0)` at the moment
`move()` is called, but `move()` sets `position` to `(0, 0)` — the value
`next_position` takes only after `previous_position` has been
overwritten. -/
theorem movable_unit_move_claim_counterexample :
    nextUnitPosition c10Unit = ((-3 : ℝ), (0 : ℝ)) ∧
    (MovableUnit.move c10Unit).position = ((0 : ℝ), (0 : ℝ)) ∧
    (MovableUnit.move c10Unit).position ≠ nextUnitPosition c10Unit := by
  have hlen3 : Vec.len ((-3 : ℝ), (0 : ℝ)) = 3 := by
    unfold Vec.len
    rw [show ((-3 : ℝ), (0 : ℝ)).1 ^ 2 + ((-3 : ℝ), (0 : ℝ)).2 ^ 2 = (3 : ℝ) ^ 2 by norm_num]
    rw [Real.sqrt_sq (by norm_num : (0 : ℝ) ≤ 3)]
  have hlen0 : Vec.len ((0 : ℝ), (0 : ℝ)) = 0 := by
    unfold Vec.len
    rw [show ((0 : ℝ), (0 : ℝ)).1 ^ 2 + ((0 : ℝ), (0 : ℝ)).2 ^ 2 = (0 : ℝ) by norm_num]
    exact Real.sqrt_zero
  have hv : c10Unit.position + c10Unit.vectorToNextUnitPosition -
      c10Unit.previousPosition = ((-3 : ℝ), (0 : ℝ)) := by
    show ((0 : ℝ), (0 : ℝ)) + ((0 : ℝ), (0 : ℝ)) - ((3 : ℝ), (0 : ℝ)) = ((-3 : ℝ), (0 : ℝ))
    rw [Prod.mk_add_mk, Prod.mk_sub_mk]
    norm_num
  have hnext : nextUnitPosition c10Unit = ((-3 : ℝ), (0 : ℝ)) := by
    rw [nextUnitPosition_some c10Unit 4 rfl, hv, hlen3, if_pos (by norm_num)]
    show ((0 : ℝ), (0 : ℝ)) + ((-3 : ℝ), (0 : ℝ)) = ((-3 : ℝ), (0 : ℝ))
    rw [Prod.mk_add_mk]
    norm_num
  have hu1 : { c10Unit with previousPosition := c10Unit.position }.position +
      { c10Unit with previousPosition := c10Unit.position }.vectorToNextUnitPosition -
      { c10Unit with previousPosition := c10Unit.position }.previousPosition =
      ((0 : ℝ), (0 : ℝ)) := by
    show ((0 : ℝ), (0 : ℝ)) + ((0 : ℝ), (0 : ℝ)) - ((0 : ℝ), (0 : ℝ)) = ((0 : ℝ), (0 : ℝ))
    rw [Prod.mk_add_mk, Prod.mk_sub_mk]
    norm_num
  have hmove : (MovableUnit.move c10Unit).position = ((0 : ℝ), (0 : ℝ)) := by
    show nextUnitPosition { c10Unit with previousPosition := c10Unit.position } =
      ((0 : ℝ), (0 : ℝ))
    rw [nextUnitPosition_some { c10Unit with previousPosition := c10Unit.position } 4 rfl,
      hu1, hlen0, if_pos (by norm_num)]
    show ((0 : ℝ), (0 : ℝ)) + ((0 : ℝ), (0 : ℝ)) = ((0 : ℝ), (0 : ℝ))
    rw [Prod.mk_add_mk]
    norm_num
  refine ⟨hnext, hmove, ?_⟩
  rw [hnext, hmove]
  intro hcontr
  rw [Prod.ext_iff] at hcontr
  norm_num at hcontr

/-- C7: evaluation of the source at the failing input.  The unit driven by
a bare `AbruptImpulseProcess` whose vector was set to `(5, 0)` does move by
`(5, 0)` once, and the mover installs the `UnitMovingProcessState` flag —
but the next `update()` of the process raises `AttributeError` instead of
resetting the vector, because `ImpulseMovingProcess._handle` reads the
never-assigned attribute `vector_to_next_point` (the raw vector lives in
`vector_to_next_unit_position`, which therefore keeps its value `(5, 0)`,
and a further move displaces the unit again instead of leaving it in
place). -/
theorem abrupt_impulse_code_eval :
    (MovableUnit.processMove impulseUnit).position = ((5 : ℝ), (0 : ℝ)) ∧
    (MovableUnit.processMove impulseUnit).pstate = some (.flag .unitMoving false) ∧
    impulseProcessUpdate (MovableUnit.processMove impulseUnit) = .error .attributeError ∧
    (MovableUnit.processMove impulseUnit).vectorToNextUnitPosition = ((5 : ℝ), (0 : ℝ)) ∧
    (MovableUnit.processMove (MovableUnit.processMove impulseUnit)).position =
      ((10 : ℝ), (0 : ℝ)) := by
  have hp1 : (MovableUnit.processMove impulseUnit).position = ((5 : ℝ), (0 : ℝ)) := by
    show nextUnitPosition { impulseUnit with previousPosition := impulseUnit.position } =
      ((5 : ℝ), (0 : ℝ))
    rw [nextUnitPosition_none _ rfl]
    show ((0 : ℝ), (0 : ℝ)) + ((5 : ℝ), (0 : ℝ)) = ((5 : ℝ), (0 : ℝ))
    rw [Prod.mk_add_mk]
    norm_num
  refine ⟨hp1, rfl, rfl, rfl, ?_⟩
  show nextUnitPosition { MovableUnit.processMove impulseUnit with
    previousPosition := (MovableUnit.processMove impulseUnit).position } = ((10 : ℝ), (0 : ℝ))
  rw [nextUnitPosition_none _ rfl]
  show (((0 : ℝ), (0 : ℝ)) + ((5 : ℝ), (0 : ℝ))) + ((5 : ℝ), (0 : ℝ)) = ((10 : ℝ), (0 : ℝ))
  rw [Prod.mk_add_mk, Prod.mk_add_mk]
  norm_num

/-- C8: evaluation of the source at the failing input.  A discrete unit
declaring one part attribute that is present (a unit with one part, like
the example Snake) makes `_get_parts` — and hence `deep_parts` — raise
`NameError`, because line 636 reads the undefined name `part_attribute`;
only a unit whose declared part attributes are all absent yields a result
(the empty set). -/
theorem deep_parts_code_eval :
    deepParts (.mk [0] [(0, [.mk [] []])]) = .error .nameError ∧
    getParts (.mk [0] [(0, [.mk [] []])]) = .error .nameError ∧
    getParts (.mk [0] []) = .ok [] := by
  exact ⟨rfl, rfl, rfl⟩

end SimEngine


